import Mathlib

/-! # Offline-availability core of the Material Money sample application

Shallow embedding of the service-worker cache lifecycle and router
(`sw.js`), the key-value persistence layer (`scripts/db.js`), and the
timed network client (`scripts/promise-utils.js`), together with the
theorems settling the specification claims about them.

Host-environment facilities (the Cache API, `XMLHttpRequest`,
IndexedDB, `localStorage`, and the JSON codec) are not repository code;
they are modelled here by executable definitions following their
documented behaviour.  Every repository function is translated from its
source file. -/

namespace MaterialMoney

/-! ## JSON values

Model of the host's JSON-serializable values: null, booleans, exact
integers standing in for the numeric payloads the application stores,
strings, arrays and objects, nested arbitrarily. -/

inductive JVal where
  | null : JVal
  | bool (b : Bool) : JVal
  | num (n : Int) : JVal
  | str (s : List Char) : JVal
  | arr (xs : List JVal) : JVal
  | obj (ms : List (List Char × JVal)) : JVal

/-! ### A verified serializer/reader pair

Model of the host's `JSON.stringify` / `JSON.parse`.  The surface
syntax is a private unambiguous format (tag characters plus unary
numerals) rather than RFC JSON text: the repository only ever reads
back its own writes, so the one property it relies on is that the
reader inverts the serializer, proved below as `jsonParse_jsonStringify`. -/

/-- Unary rendering of a natural number, closed by a semicolon. -/
def encNat (n : Nat) : List Char :=
  List.replicate n 'I' ++ [';']

/-- Rendering of a string: each character as its unary code point, then `E`. -/
def encChars (s : List Char) : List Char :=
  s.flatMap (fun c => encNat c.toNat) ++ ['E']

mutual

/-- Rendering of a JSON value (model of the host serializer). -/
def encJ : JVal → List Char
  | .null => ['N']
  | .bool true => ['T']
  | .bool false => ['F']
  | .num (Int.ofNat n) => 'P' :: encNat n
  | .num (Int.negSucc n) => 'M' :: encNat n
  | .str s => 'S' :: encChars s
  | .arr xs => 'A' :: encArr xs
  | .obj ms => 'O' :: encObj ms

/-- Rendering of an array body: each element after a `C`, then `E`. -/
def encArr : List JVal → List Char
  | [] => ['E']
  | x :: xs => 'C' :: (encJ x ++ encArr xs)

/-- Rendering of an object body: key and value after a `C`, then `E`. -/
def encObj : List (List Char × JVal) → List Char
  | [] => ['E']
  | (k, v) :: ms => 'C' :: (encChars k ++ (encJ v ++ encObj ms))

end

/-- Reader for unary naturals. -/
def parseNatU : List Char → Option (Nat × List Char)
  | ';' :: r => some (0, r)
  | 'I' :: r =>
    match parseNatU r with
    | some (n, r1) => some (n + 1, r1)
    | none => none
  | _ => none

/-- Reader for strings; `acc` is the code point accumulated so far. -/
def parseChars (acc : Nat) : List Char → Option (List Char × List Char)
  | 'E' :: r => if acc = 0 then some ([], r) else none
  | 'I' :: r => parseChars (acc + 1) r
  | ';' :: r =>
    match parseChars 0 r with
    | some (s, r1) => some (Char.ofNat acc :: s, r1)
    | none => none
  | _ => none

mutual

/-- Reader for JSON values, structurally recursive on a fuel counter. -/
def parseJ : Nat → List Char → Option (JVal × List Char)
  | 0, _ => none
  | fuel + 1, cs =>
    match cs with
    | 'N' :: r => some (.null, r)
    | 'T' :: r => some (.bool true, r)
    | 'F' :: r => some (.bool false, r)
    | 'P' :: r =>
      match parseNatU r with
      | some (n, r1) => some (.num (Int.ofNat n), r1)
      | none => none
    | 'M' :: r =>
      match parseNatU r with
      | some (n, r1) => some (.num (Int.negSucc n), r1)
      | none => none
    | 'S' :: r =>
      match parseChars 0 r with
      | some (s, r1) => some (.str s, r1)
      | none => none
    | 'A' :: r =>
      match parseArr fuel r with
      | some (xs, r1) => some (.arr xs, r1)
      | none => none
    | 'O' :: r =>
      match parseObj fuel r with
      | some (ms, r1) => some (.obj ms, r1)
      | none => none
    | _ => none

/-- Reader for array bodies. -/
def parseArr : Nat → List Char → Option (List JVal × List Char)
  | 0, _ => none
  | fuel + 1, cs =>
    match cs with
    | 'E' :: r => some ([], r)
    | 'C' :: r =>
      match parseJ fuel r with
      | some (x, r1) =>
        match parseArr fuel r1 with
        | some (xs, r2) => some (x :: xs, r2)
        | none => none
      | none => none
    | _ => none

/-- Reader for object bodies. -/
def parseObj : Nat → List Char → Option (List (List Char × JVal) × List Char)
  | 0, _ => none
  | fuel + 1, cs =>
    match cs with
    | 'E' :: r => some ([], r)
    | 'C' :: r =>
      match parseChars 0 r with
      | some (k, r1) =>
        match parseJ fuel r1 with
        | some (v, r2) =>
          match parseObj fuel r2 with
          | some (ms, r3) => some ((k, v) :: ms, r3)
          | none => none
        | none => none
      | none => none
    | _ => none

end

mutual

/-- Fuel sufficient for `parseJ` to read back `encJ v`. -/
def fuelJ : JVal → Nat
  | .null => 1
  | .bool _ => 1
  | .num _ => 1
  | .str _ => 1
  | .arr xs => 1 + fuelArr xs
  | .obj ms => 1 + fuelObj ms

/-- Fuel sufficient for `parseArr` to read back `encArr xs`. -/
def fuelArr : List JVal → Nat
  | [] => 1
  | x :: xs => 1 + (fuelJ x + fuelArr xs)

/-- Fuel sufficient for `parseObj` to read back `encObj ms`. -/
def fuelObj : List (List Char × JVal) → Nat
  | [] => 1
  | (_, v) :: ms => 1 + (fuelJ v + fuelObj ms)

end

theorem parseNatU_encNat (n : Nat) (rest : List Char) :
    parseNatU (encNat n ++ rest) = some (n, rest) := by
  induction n with
  | zero => simp [encNat, parseNatU]
  | succ k ih =>
    have : encNat (k + 1) ++ rest = 'I' :: (encNat k ++ rest) := by
      simp [encNat, List.replicate_succ]
    rw [this, parseNatU, ih]

theorem parseChars_replicate (n : Nat) :
    ∀ (acc : Nat) (r : List Char),
      parseChars acc (List.replicate n 'I' ++ r) = parseChars (acc + n) r := by
  induction n with
  | zero => intro acc r; simp
  | succ k ih =>
    intro acc r
    rw [List.replicate_succ, List.cons_append, parseChars, ih]
    congr 1
    omega

theorem parseChars_encChars (s : List Char) (rest : List Char) :
    parseChars 0 (encChars s ++ rest) = some (s, rest) := by
  induction s with
  | nil => simp [encChars, parseChars]
  | cons c t ih =>
    have harg : encChars (c :: t) ++ rest
        = List.replicate c.toNat 'I' ++ (';' :: (encChars t ++ rest)) := by
      simp [encChars, encNat]
    rw [harg, parseChars_replicate, Nat.zero_add, parseChars, ih, Char.ofNat_toNat]

mutual

theorem parseJ_encJ : ∀ (v : JVal) (fuel : Nat) (rest : List Char),
    fuelJ v ≤ fuel → parseJ fuel (encJ v ++ rest) = some (v, rest)
  | .null, fuel, rest, h => by
    cases fuel with
    | zero => exact absurd h (by simp [fuelJ])
    | succ f => simp [encJ, parseJ]
  | .bool b, fuel, rest, h => by
    cases fuel with
    | zero => exact absurd h (by simp [fuelJ])
    | succ f => cases b <;> simp [encJ, parseJ]
  | .num (Int.ofNat n), fuel, rest, h => by
    cases fuel with
    | zero => exact absurd h (by simp [fuelJ])
    | succ f => simp [encJ, parseJ, parseNatU_encNat]
  | .num (Int.negSucc n), fuel, rest, h => by
    cases fuel with
    | zero => exact absurd h (by simp [fuelJ])
    | succ f => simp [encJ, parseJ, parseNatU_encNat]
  | .str s, fuel, rest, h => by
    cases fuel with
    | zero => exact absurd h (by simp [fuelJ])
    | succ f => simp [encJ, parseJ, parseChars_encChars]
  | .arr xs, fuel, rest, h => by
    cases fuel with
    | zero => exact absurd h (by simp [fuelJ])
    | succ f =>
      have hxs : fuelArr xs ≤ f := by
        simp only [fuelJ] at h; omega
      simp [encJ, parseJ, parseArr_encArr xs f rest hxs]
  | .obj ms, fuel, rest, h => by
    cases fuel with
    | zero => exact absurd h (by simp [fuelJ])
    | succ f =>
      have hms : fuelObj ms ≤ f := by
        simp only [fuelJ] at h; omega
      simp [encJ, parseJ, parseObj_encObj ms f rest hms]

theorem parseArr_encArr : ∀ (xs : List JVal) (fuel : Nat) (rest : List Char),
    fuelArr xs ≤ fuel → parseArr fuel (encArr xs ++ rest) = some (xs, rest)
  | [], fuel, rest, h => by
    cases fuel with
    | zero => exact absurd h (by simp [fuelArr])
    | succ f => simp [encArr, parseArr]
  | x :: xs, fuel, rest, h => by
    cases fuel with
    | zero => exact absurd h (by simp [fuelArr])
    | succ f =>
      have hx : fuelJ x ≤ f := by
        simp only [fuelArr] at h; omega
      have hxs : fuelArr xs ≤ f := by
        simp only [fuelArr] at h; omega
      have harg : encArr (x :: xs) ++ rest = 'C' :: (encJ x ++ (encArr xs ++ rest)) := by
        simp [encArr]
      rw [harg, parseArr, parseJ_encJ x f _ hx]
      simp [parseArr_encArr xs f rest hxs]

theorem parseObj_encObj : ∀ (ms : List (List Char × JVal)) (fuel : Nat) (rest : List Char),
    fuelObj ms ≤ fuel → parseObj fuel (encObj ms ++ rest) = some (ms, rest)
  | [], fuel, rest, h => by
    cases fuel with
    | zero => exact absurd h (by simp [fuelObj])
    | succ f => simp [encObj, parseObj]
  | (k, v) :: ms, fuel, rest, h => by
    cases fuel with
    | zero => exact absurd h (by simp [fuelObj])
    | succ f =>
      have hv : fuelJ v ≤ f := by
        simp only [fuelObj] at h; omega
      have hms : fuelObj ms ≤ f := by
        simp only [fuelObj] at h; omega
      have harg : encObj ((k, v) :: ms) ++ rest
          = 'C' :: (encChars k ++ (encJ v ++ (encObj ms ++ rest))) := by
        simp [encObj]
      rw [harg, parseObj, parseChars_encChars]
      simp [parseJ_encJ v f _ hv, parseObj_encObj ms f rest hms]

end

mutual

theorem fuelJ_le_length : ∀ (v : JVal), fuelJ v ≤ (encJ v).length
  | .null => by simp [fuelJ, encJ]
  | .bool b => by cases b <;> simp [fuelJ, encJ]
  | .num (Int.ofNat n) => by simp [fuelJ, encJ]
  | .num (Int.negSucc n) => by simp [fuelJ, encJ]
  | .str s => by simp [fuelJ, encJ]
  | .arr xs => by
    have := fuelArr_le_length xs
    simp only [fuelJ, encJ, List.length_cons]
    omega
  | .obj ms => by
    have := fuelObj_le_length ms
    simp only [fuelJ, encJ, List.length_cons]
    omega

theorem fuelArr_le_length : ∀ (xs : List JVal), fuelArr xs ≤ (encArr xs).length
  | [] => by simp [fuelArr, encArr]
  | x :: xs => by
    have h1 := fuelJ_le_length x
    have h2 := fuelArr_le_length xs
    simp only [fuelArr, encArr, List.length_cons, List.length_append]
    omega

theorem fuelObj_le_length : ∀ (ms : List (List Char × JVal)), fuelObj ms ≤ (encObj ms).length
  | [] => by simp [fuelObj, encObj]
  | (k, v) :: ms => by
    have h1 := fuelJ_le_length v
    have h2 := fuelObj_le_length ms
    simp only [fuelObj, encObj, List.length_cons, List.length_append]
    omega

end

/-- Model of the host serializer at `String` type. -/
def jsonStringify (v : JVal) : String := String.mk (encJ v)

/-- Model of the host JSON reader: read the whole string or fail. -/
def jsonParse (s : String) : Option JVal :=
  match parseJ s.data.length s.data with
  | some (v, []) => some v
  | _ => none

/-- The host JSON reader inverts the host serializer: the one property
of the host codec the repository relies on. -/
theorem jsonParse_jsonStringify (v : JVal) : jsonParse (jsonStringify v) = some v := by
  have h := parseJ_encJ v (encJ v).length [] (fuelJ_le_length v)
  rw [List.append_nil] at h
  simp [jsonParse, jsonStringify, h]

/-! ## Key-value persistence (`scripts/db.js`)

The store prefers IndexedDB (database `db`, object store `kv`, values
kept as structured clones) and falls back to `localStorage` with the
values round-tripped through the JSON codec.  Both hosts are modelled
as association lists. -/

/-- Lookup in a string-keyed association list, shared by the host-store
models. -/
def assocGet {α : Type} (l : List (String × α)) (k : String) : Option α :=
  (l.find? (fun e => e.1 == k)).map Prod.snd

/-- Overwrite in a string-keyed association list. -/
def assocPut {α : Type} (l : List (String × α)) (k : String) (v : α) :
    List (String × α) :=
  (k, v) :: l.filter (fun e => !(e.1 == k))

/-- The IndexedDB `kv` object store: keys to structured-clone values. -/
abbrev IdbStore := List (String × JVal)

/-- Model of an IndexedDB `get`: `undefined` (here `none`) when absent. -/
def idbGet (st : IdbStore) (key : String) : Option JVal :=
  assocGet st key

/-- Model of an IndexedDB `put`: overwrite the record under the key. -/
def idbPut (st : IdbStore) (key : String) (v : JVal) : IdbStore :=
  assocPut st key v

/-- The `localStorage` area: keys to stored text. -/
abbrev WebStorage := List (String × String)

/-- Model of `localStorage.getItem`: `null` (here `none`) when absent. -/
def lsGetItem (ls : WebStorage) (key : String) : Option String :=
  assocGet ls key

/-- Model of `localStorage.setItem`: overwrite the text under the key. -/
def lsSetItem (ls : WebStorage) (key : String) (s : String) : WebStorage :=
  assocPut ls key s

/-- How one `loadFromStore` promise settles. -/
inductive LoadOutcome where
  | value (v : JVal)
  | keyNotFound (msg : String)
  | malformed

/-- Translation of `loadFromStore` (scripts/db.js): with IndexedDB
available, read the `kv` store and reject with a key-not-found error
exactly when the result is `undefined`; otherwise resolve
`JSON.parse(localStorage.getItem(key))` — and `getItem` of an absent
key gives `null`, which `JSON.parse` coerces to the text `"null"` and
reads as the JSON value `null`, while stored text that fails to read
throws inside the executor and rejects the promise. -/
def loadFromStore (idbAvailable : Bool) (st : IdbStore) (ls : WebStorage)
    (key : String) : LoadOutcome :=
  if idbAvailable then
    match idbGet st key with
    | some v => .value v
    | none => .keyNotFound ("Key not found: " ++ key)
  else
    match lsGetItem ls key with
    | some s =>
      match jsonParse s with
      | some v => .value v
      | none => .malformed
    | none => .value .null

/-- Translation of `saveToStore` (scripts/db.js): with IndexedDB
available, `put` the value as-is under the key; otherwise
`localStorage.setItem(key, JSON.stringify(value))`. -/
def saveToStore (idbAvailable : Bool) (st : IdbStore) (ls : WebStorage)
    (key : String) (v : JVal) : IdbStore × WebStorage :=
  if idbAvailable then (idbPut st key v, ls)
  else (st, lsSetItem ls key (jsonStringify v))

/-! ## Timed network client (`scripts/promise-utils.js`) -/

/-- The terminal event the server side delivers for one request. -/
inductive ServerEvent where
  | load (status : Nat) (statusText : String) (body : String)
  | netError
  | aborted
deriving DecidableEq

/-- One request's server behaviour: its latency and its terminal event. -/
structure ServerBehavior where
  latency : Nat
  terminal : ServerEvent
deriving DecidableEq

/-- How a `fetchFile` promise settles. -/
inductive FetchResult where
  | resolved (v : JVal)
  | rejected (msg : String)

/-- Model of the XHR `response` property at `load` time: with
responseType `json` the body as read by the host JSON reader, with
`null` substituted when reading fails; with the default responseType
the body text itself. -/
def xhrResponse (responseType : String) (body : String) : JVal :=
  if responseType = "json" then
    match jsonParse body with
    | some v => v
    | none => .null
  else .str body.data

/-- Translation of `fetchFile` (scripts/promise-utils.js).  The XHR
`timeout` property of `0` means no timer at all; a positive timer fires
exactly when it is shorter than the server's latency.  Otherwise the
`load` listener resolves on status `200` and rejects with the error
string plus the HTTP status text on any other status; the `error` and
`abort` listeners reject with the error string alone. -/
def fetchFile (srv : ServerBehavior) (errorString : String) (timeout : Nat)
    (responseType : String) : FetchResult :=
  if 0 < timeout ∧ timeout < srv.latency then
    .rejected (errorString ++ " Request timed out.")
  else
    match srv.terminal with
    | .load status statusText body =>
      if status = 200 then .resolved (xhrResponse responseType body)
      else .rejected (errorString ++ " HTTP " ++ statusText ++ ".")
    | .netError => .rejected errorString
    | .aborted => .rejected errorString

/-- Translation of `fetchJson` (scripts/promise-utils.js): `fetchFile`
with responseType `json`. -/
def fetchJson (srv : ServerBehavior) (errorString : String) (timeout : Nat) :
    FetchResult :=
  fetchFile srv errorString timeout "json"

/-! ## Service worker (`sw.js`) -/

/-- An HTTP response as the Cache API stores it: an opaque payload plus
the ok flag `addAll` checks. -/
structure SWResponse where
  body : String
  ok : Bool
deriving DecidableEq

/-- The network: every URL either yields a response or fails at the
transport level. -/
abbrev Network := String → Option SWResponse

/-- The Cache API storage: named caches holding request-URL-keyed
entries. -/
abbrev CacheStorage := List (String × List (String × SWResponse))

/-- The current cache generation identifier (sw.js). -/
def APP_CACHE : String := "material-money-v8"

/-- The volatile rate-quote path (sw.js). -/
def RATE_URL : String := "/rates"

/-- The precache manifest (sw.js). -/
def urlsToCache : List String :=
  ["/",
   "/favicon.ico",
   "/manifest.json",
   "/data/country-currencies.json",
   "/data/currencies.json",
   "/scripts/views/view-0.js",
   "/scripts/views/view-1.js",
   "/styles/styles.min.css",
   "/images/ic_arrow_back.svg",
   "/images/ic_home.svg",
   "/images/ic_language.svg",
   "/images/ic_more_vert.svg",
   "/images/ic_refresh.svg",
   "/images/ic_warning.svg",
   "/images/touch/apple-touch-icon.png",
   "/images/touch/chrome-touch-icon-192x192.png",
   "/images/touch/icon-128x128.png",
   "/images/touch/icon-256x256.png",
   "/images/touch/icon-512x512.png",
   "/images/touch/ms-touch-icon-144x144-precomposed.png"]

/-- The names present in cache storage. -/
def cacheNames (cs : CacheStorage) : List String := cs.map Prod.fst

/-- Model of `caches.open`: create the named cache when absent. -/
def cachesOpen (cs : CacheStorage) (name : String) : CacheStorage :=
  if cs.any (fun c => c.1 == name) then cs else cs ++ [(name, [])]

/-- Model of `cache.match` on the named cache: the entry stored under
the request URL. -/
def cacheMatch (cs : CacheStorage) (name url : String) : Option SWResponse :=
  match cs.find? (fun c => c.1 == name) with
  | some c => assocGet c.2 url
  | none => none

/-- Model of `cache.put` on the named cache: replace the entry stored
under the URL. -/
def cachePut (cs : CacheStorage) (name url : String) (resp : SWResponse) :
    CacheStorage :=
  cs.map (fun c => if c.1 == name then (c.1, assocPut c.2 url resp) else c)

/-- The fetch phase of `cache.addAll`: every URL must come back with an
ok response, otherwise the whole operation rejects. -/
def fetchAllOk (net : Network) : List String → Option (List (String × SWResponse))
  | [] => some []
  | u :: us =>
    match net u with
    | some r =>
      if r.ok then
        match fetchAllOk net us with
        | some es => some ((u, r) :: es)
        | none => none
      else none
    | none => none

/-- Model of `cache.addAll`: fetch every URL, then commit all entries as
one batch; nothing is written when any fetch fails or is non-ok. -/
def cacheAddAll (net : Network) (cs : CacheStorage) (name : String)
    (urls : List String) : Option CacheStorage :=
  match fetchAllOk net urls with
  | some es => some (es.foldl (fun acc e => cachePut acc name e.1 e.2) cs)
  | none => none

/-- Translation of the `install` listener (sw.js): open the current
generation cache — creating it — then `addAll` the precache manifest.
The Boolean records whether the `waitUntil` promise, and with it
installation, succeeded; either way the returned storage is what
persists. -/
def installHandler (net : Network) (cs : CacheStorage) : Bool × CacheStorage :=
  let cs1 := cachesOpen cs APP_CACHE
  match cacheAddAll net cs1 APP_CACHE urlsToCache with
  | some cs2 => (true, cs2)
  | none => (false, cs1)

/-- Translation of the `activate` listener (sw.js): delete every cache
whose name differs from `APP_CACHE`; the result is the storage once all
deletions, awaited together under `waitUntil`, have completed. -/
def activateHandler (cs : CacheStorage) : CacheStorage :=
  cs.filter (fun c => c.1 == APP_CACHE)

/-- An intercepted request: its origin and its pathname. -/
structure SWRequest where
  origin : String
  path : String
deriving DecidableEq

/-- The full request URL. -/
def SWRequest.url (r : SWRequest) : String := r.origin ++ r.path

/-- What one run of the `fetch` listener does: the `respondWith`
settlement when it was called (`some none` being a rejected response
promise), the cache storage afterwards, the URLs the handler itself
fetched, and whether the handler touched the cache at all. -/
structure RouteOutcome where
  responded : Option (Option SWResponse)
  cacheAfter : CacheStorage
  handlerFetches : List String
  usedCache : Bool
deriving DecidableEq

/-- Translation of `cacheWithNetworkFallbackAndStore` (sw.js): respond
from the generation cache; on a miss fetch the request, store the
response under the request URL, and respond with it, a transport
failure propagating into the response promise. -/
def cacheWithNetworkFallbackAndStore (net : Network) (cs : CacheStorage)
    (req : SWRequest) : RouteOutcome :=
  let cs1 := cachesOpen cs APP_CACHE
  match cacheMatch cs1 APP_CACHE req.url with
  | some r => ⟨some (some r), cs1, [], true⟩
  | none =>
    match net req.url with
    | some r => ⟨some (some r), cachePut cs1 APP_CACHE req.url r, [req.url], true⟩
    | none => ⟨some none, cs1, [req.url], true⟩

/-- The cache-busted URL built by `cacheThenUpdateWithCacheBust`: the
original URL with the current time appended as a query string. -/
def bustedUrl (req : SWRequest) (now : Nat) : String :=
  req.url ++ "?" ++ toString now

/-- Translation of `cacheThenUpdateWithCacheBust` (sw.js): start the
busted network fetch unconditionally; respond with the cache match on
the original identity when there is one and with the busted fetch
otherwise; independently (under `waitUntil`), once the busted fetch
settles, a success is written back under the original identity
(`update`) and a failure writes nothing. -/
def cacheThenUpdateWithCacheBust (net : Network) (now : Nat) (cs : CacheStorage)
    (req : SWRequest) : RouteOutcome :=
  let cs1 := cachesOpen cs APP_CACHE
  let networkResp := net (bustedUrl req now)
  let servedResp : Option SWResponse :=
    match cacheMatch cs1 APP_CACHE req.url with
    | some r => some r
    | none => networkResp
  let cs2 :=
    match networkResp with
    | some r => cachePut cs1 APP_CACHE req.url r
    | none => cs1
  ⟨some servedResp, cs2, [bustedUrl req now], true⟩

/-- Translation of the `fetch` listener (sw.js): route on the request
URL's pathname alone.  The `/rates` branch issues a fire-and-forget
fetch of the request and never calls `respondWith`, so that event is
not intercepted. -/
def fetchHandler (net : Network) (now : Nat) (cs : CacheStorage)
    (req : SWRequest) : RouteOutcome :=
  if req.path = "/rates" then ⟨none, cs, [req.url], false⟩
  else if req.path = "/" then cacheThenUpdateWithCacheBust net now cs req
  else cacheWithNetworkFallbackAndStore net cs req

/-- The response the page actually receives from a fetch event: the
`respondWith` settlement when the handler intercepted, and the
browser's own default network fetch of the request otherwise. -/
def servedToCaller (net : Network) (req : SWRequest) (o : RouteOutcome) :
    Option SWResponse :=
  match o.responded with
  | some r => r
  | none => net req.url

/-! ## Deferred rate-refresh task (`sync` listener in sw.js) -/

/-- The externally visible actions a `sync` delivery can produce. -/
inductive SyncAction where
  | notify (title body icon badge : String)
  | idbPutAction (dbName storeName key : String) (v : JVal)

/-- Translation of the `sync` listener (sw.js), as the ordered list of
externally visible actions one delivery produces.  The promise chain
fetches the quote resource, reads its body as JSON, and then shows the
notification; the IndexedDB `put` is issued inside the chain but never
awaited — the open request's success callback runs as a later task,
after the already-queued microtask has shown the notification — so on a
successful delivery the `put` is the last action, and a delivery
without IndexedDB skips persistence yet still notifies. -/
def syncHandler (tag : String) (rateNet : String → Option String)
    (idbAvailable : Bool) : List SyncAction :=
  if tag = "rates" then
    match rateNet RATE_URL with
    | some body =>
      match jsonParse body with
      | some v =>
        .notify "Material Money" "Currency rates updated."
            "/images/touch/icon-256x256.png" "/images/touch/icon-256x256.png"
          :: (if idbAvailable then [.idbPutAction "db" "kv" "rates" v] else [])
      | none => []
    | none => []
  else []

/-! ## The router of the routing claim

A second router, written from the claim's own words rather than from
the source, to compare the source's routing against. -/

/-- The strategy the claim assigns to a request. -/
inductive SpecStrategy where
  | networkOnly
  | staleWhileRevalidate
  | cacheFirst
  | passThrough
deriving DecidableEq

/-- Classification from the claim's words: the rate-quote path to
Network-Only, the document root to Stale-While-Revalidate, everything
else matched by the precache manifest or same-origin to Cache-First,
and anything not matched passed through untouched. -/
def specClassify (appOrigin : String) (req : SWRequest) : SpecStrategy :=
  if req.path = "/rates" then .networkOnly
  else if req.path = "/" then .staleWhileRevalidate
  else if req.origin = appOrigin ∨ req.path ∈ urlsToCache then .cacheFirst
  else .passThrough

/-! ## Helper lemmas about the host-store models -/

theorem find?_filter_not_beq {α : Type} (l : List (String × α)) (k k2 : String)
    (h : k ≠ k2) :
    (l.filter (fun e => !(e.1 == k2))).find? (fun e => e.1 == k)
      = l.find? (fun e => e.1 == k) := by
  induction l with
  | nil => rfl
  | cons e l ih =>
    by_cases h2 : e.1 = k2
    · have h1 : (e.1 == k) = false := by
        simp [h2]
        exact fun hk => h (hk ▸ h2 ▸ rfl)
      simp [List.filter_cons, h2, List.find?_cons, h1, ih, Ne.symm h]
    · by_cases h1 : e.1 = k
      · simp [List.filter_cons, h2, List.find?_cons, h1, h]
      · simp [List.filter_cons, h2, List.find?_cons, h1, ih, h]

theorem assocGet_assocPut_self {α : Type} (l : List (String × α)) (k : String)
    (v : α) : assocGet (assocPut l k v) k = some v := by
  simp [assocGet, assocPut]

theorem assocGet_assocPut_other {α : Type} (l : List (String × α))
    (k k2 : String) (v : α) (h : k ≠ k2) :
    assocGet (assocPut l k2 v) k = assocGet l k := by
  have hb : (k2 == k) = false := by
    simp
    exact fun hk => h (hk ▸ rfl)
  simp only [assocGet, assocPut, List.find?_cons, hb]
  rw [find?_filter_not_beq l k k2 h]

theorem mem_cacheNames_cachesOpen (cs : CacheStorage) (name : String) :
    name ∈ cacheNames (cachesOpen cs name) := by
  by_cases h : cs.any (fun c => c.1 == name)
  · simp only [cachesOpen, h, if_true]
    rcases List.any_eq_true.mp h with ⟨c, hc, hbeq⟩
    exact List.mem_map.mpr ⟨c, hc, (beq_iff_eq.mp hbeq)⟩
  · simp [cachesOpen, h, cacheNames]

theorem cachesOpen_of_mem (cs : CacheStorage) (name : String)
    (h : name ∈ cacheNames cs) : cachesOpen cs name = cs := by
  have : cs.any (fun c => c.1 == name) = true := by
    rcases List.mem_map.mp h with ⟨c, hc, hfst⟩
    exact List.any_eq_true.mpr ⟨c, hc, beq_iff_eq.mpr hfst⟩
  simp [cachesOpen, this]

theorem cacheNames_cachePut (cs : CacheStorage) (name url : String)
    (r : SWResponse) : cacheNames (cachePut cs name url r) = cacheNames cs := by
  simp only [cacheNames, cachePut, List.map_map]
  congr 1
  funext c
  simp only [Function.comp_apply]
  split <;> rfl

theorem cacheMatch_cachePut_self (cs : CacheStorage) (name url : String)
    (r : SWResponse) (h : name ∈ cacheNames cs) :
    cacheMatch (cachePut cs name url r) name url = some r := by
  induction cs with
  | nil => simp [cacheNames] at h
  | cons c cs ih =>
    by_cases hc : c.1 = name
    · have hput : cachePut (c :: cs) name url r
          = (c.1, assocPut c.2 url r) :: cachePut cs name url r := by
        simp [cachePut, hc]
      rw [hput, cacheMatch, List.find?_cons_of_pos _ (by simp [hc])]
      exact assocGet_assocPut_self c.2 url r
    · have hmem : name ∈ cacheNames cs := by
        rcases List.mem_map.mp h with ⟨d, hd, hfst⟩
        rcases List.mem_cons.mp hd with rfl | hd2
        · exact absurd hfst hc
        · exact List.mem_map.mpr ⟨d, hd2, hfst⟩
      have hput : cachePut (c :: cs) name url r = c :: cachePut cs name url r := by
        simp [cachePut, hc]
      rw [hput, cacheMatch, List.find?_cons_of_neg _ (by simp [hc])]
      exact ih hmem

theorem cacheMatch_cachePut_other (cs : CacheStorage) (name url url2 : String)
    (r : SWResponse) (h : url ≠ url2) :
    cacheMatch (cachePut cs name url2 r) name url = cacheMatch cs name url := by
  induction cs with
  | nil => rfl
  | cons c cs ih =>
    by_cases hc : c.1 = name
    · have hput : cachePut (c :: cs) name url2 r
          = (c.1, assocPut c.2 url2 r) :: cachePut cs name url2 r := by
        simp [cachePut, hc]
      rw [hput, cacheMatch, List.find?_cons_of_pos _ (by simp [hc]), cacheMatch,
        List.find?_cons_of_pos _ (by simp [hc])]
      exact assocGet_assocPut_other c.2 url url2 r h
    · have hput : cachePut (c :: cs) name url2 r = c :: cachePut cs name url2 r := by
        simp [cachePut, hc]
      rw [hput, cacheMatch, List.find?_cons_of_neg _ (by simp [hc]), cacheMatch,
        List.find?_cons_of_neg _ (by simp [hc])]
      exact ih

/-- Whether a network result is an ok response, as `addAll` requires. -/
def okResp : Option SWResponse → Bool
  | some r => r.ok
  | none => false

theorem fetchAllOk_eq_map (net : Network) (us : List String)
    (h : ∀ u ∈ us, okResp (net u) = true) :
    fetchAllOk net us = some (us.map (fun u => (u, (net u).getD ⟨"", false⟩))) := by
  induction us with
  | nil => rfl
  | cons u us ih =>
    have hu := h u (by simp)
    cases hnet : net u with
    | none => rw [hnet] at hu; simp [okResp] at hu
    | some r =>
      have hok : r.ok = true := by rw [hnet] at hu; simpa [okResp] using hu
      have ht := ih (fun x hx => h x (by simp [hx]))
      simp [fetchAllOk, hnet, hok, ht]

theorem fetchAllOk_none (net : Network) (us : List String) (u0 : String)
    (hmem : u0 ∈ us) (hbad : okResp (net u0) = false) :
    fetchAllOk net us = none := by
  induction us with
  | nil => simp at hmem
  | cons u us ih =>
    rcases List.mem_cons.mp hmem with rfl | h2
    · cases hnet : net u0 with
      | none => simp [fetchAllOk, hnet]
      | some r =>
        have : r.ok = false := by rw [hnet] at hbad; simpa [okResp] using hbad
        simp [fetchAllOk, hnet, this]
    · cases hnet : net u with
      | none => simp [fetchAllOk, hnet]
      | some r =>
        cases hok : r.ok
        · simp [fetchAllOk, hnet, hok]
        · simp [fetchAllOk, hnet, hok, ih h2]

theorem cacheNames_foldl_put (es : List (String × SWResponse))
    (cs : CacheStorage) (name : String) :
    cacheNames (es.foldl (fun acc e => cachePut acc name e.1 e.2) cs)
      = cacheNames cs := by
  induction es generalizing cs with
  | nil => rfl
  | cons e es ih => rw [List.foldl_cons, ih, cacheNames_cachePut]

theorem cacheMatch_foldl_put_not_mem (es : List (String × SWResponse))
    (cs : CacheStorage) (name u : String) (h : u ∉ es.map Prod.fst) :
    cacheMatch (es.foldl (fun acc e => cachePut acc name e.1 e.2) cs) name u
      = cacheMatch cs name u := by
  induction es generalizing cs with
  | nil => rfl
  | cons e es ih =>
    have h1 : u ≠ e.1 := fun hh => h (by simp [hh])
    have h2 : u ∉ es.map Prod.fst := fun hh => h (by simp [hh])
    rw [List.foldl_cons, ih _ h2, cacheMatch_cachePut_other _ _ _ _ _ h1]

theorem cacheMatch_foldl_put_mem (es : List (String × SWResponse))
    (cs : CacheStorage) (name u : String) (v : SWResponse)
    (hname : name ∈ cacheNames cs) (hnd : (es.map Prod.fst).Nodup)
    (hmem : (u, v) ∈ es) :
    cacheMatch (es.foldl (fun acc e => cachePut acc name e.1 e.2) cs) name u
      = some v := by
  induction es generalizing cs with
  | nil => simp at hmem
  | cons e es ih =>
    rcases List.mem_cons.mp hmem with heq | h2
    · subst heq
      have hu : u ∉ es.map Prod.fst := by
        simp only [List.map_cons] at hnd
        exact (List.nodup_cons.mp hnd).1
      rw [List.foldl_cons, cacheMatch_foldl_put_not_mem es _ name u hu]
      exact cacheMatch_cachePut_self cs name u v hname
    · rw [List.foldl_cons]
      refine ih (cachePut cs name e.1 e.2) ?_ ?_ h2
      · rw [cacheNames_cachePut]; exact hname
      · simp only [List.map_cons] at hnd
        exact hnd.of_cons

theorem cacheMatch_append_fresh (cs : CacheStorage) (name : String)
    (h : name ∉ cacheNames cs) (u : String) :
    cacheMatch (cs ++ [(name, [])]) name u = none := by
  induction cs with
  | nil =>
    rw [List.nil_append, cacheMatch, List.find?_cons_of_pos _ (by simp)]
    rfl
  | cons c cs ih =>
    have hc : c.1 ≠ name := fun hh => h (by simp [cacheNames, hh])
    have h2 : name ∉ cacheNames cs := fun hh => h (by simp [cacheNames] at hh ⊢; right; exact hh)
    rw [List.cons_append, cacheMatch, List.find?_cons_of_neg _ (by simp [hc])]
    exact ih h2

theorem cacheMatch_cachesOpen_fresh (cs : CacheStorage) (name : String)
    (h : name ∉ cacheNames cs) (u : String) :
    cacheMatch (cachesOpen cs name) name u = none := by
  have hany : cs.any (fun c => c.1 == name) = false := by
    rw [List.any_eq_false]
    intro c hc
    simp only [beq_iff_eq]
    exact fun hfst => h (List.mem_map.mpr ⟨c, hc, hfst⟩)
  rw [cachesOpen, hany]
  simp only [Bool.false_eq_true, if_false]
  exact cacheMatch_append_fresh cs name h u

theorem cacheNames_activateHandler (cs : CacheStorage) :
    cacheNames (activateHandler cs)
      = (cacheNames cs).filter (fun n => n == APP_CACHE) := by
  simp only [cacheNames, activateHandler]
  rw [List.filter_map]
  rfl

theorem idbGet_idbPut (st : IdbStore) (key : String) (v : JVal) :
    idbGet (idbPut st key v) key = some v :=
  assocGet_assocPut_self st key v

theorem lsGetItem_lsSetItem (ls : WebStorage) (key : String) (s : String) :
    lsGetItem (lsSetItem ls key s) key = some s :=
  assocGet_assocPut_self ls key s

/-! ## The claims -/

/-- C6 counterexample: the XHR `timeout` property of `0` disables the
timer entirely, so `fetchJson` with timeout `0` against a server slower
than any bound still resolves with a successfully parsed value instead
of rejecting with the timeout classification. -/
theorem fetchJson_zero_timeout_can_resolve :
    fetchJson ⟨100, .load 200 "OK" (jsonStringify (.bool true))⟩
        "Could not fetch." 0 = .resolved (.bool true) := by
  have h := jsonParse_jsonStringify (.bool true)
  simp [fetchJson, fetchFile, xhrResponse, h]

/-- C6 (amended): `fetchJson` with a positive timeout smaller than the
server's latency rejects with the timeout classification and never with
a parsed value; a timeout of `0` arms no timer at all (XHR semantics),
so only positive timeouts are covered. -/
theorem fetchJson_armed_timeout_rejects (srv : ServerBehavior) (label : String)
    (t : Nat) (h0 : 0 < t) (hlat : t < srv.latency) :
    fetchJson srv label t = .rejected (label ++ " Request timed out.") := by
  simp [fetchJson, fetchFile, h0, hlat]

/-- C6 witness: a one-millisecond timer against a five-millisecond
server rejects with the timeout classification. -/
theorem fetchJson_armed_timeout_rejects_witness :
    fetchJson ⟨5, .netError⟩ "Could not fetch." 1
      = .rejected ("Could not fetch." ++ " Request timed out.") :=
  fetchJson_armed_timeout_rejects ⟨5, .netError⟩ "Could not fetch." 1
    (by decide) (by decide)

/-- C7 counterexample: a status-200 response whose body fails to parse
resolves with `null` (the XHR `response` property for responseType
`json`), not with any "malformed response" rejection; and a 201
response — 2xx but not 200 — rejects with the HTTP classification. -/
theorem fetchJson_malformed_body_resolves_null :
    fetchJson ⟨3, .load 200 "OK" "?"⟩ "Could not fetch." 0 = .resolved .null
      ∧ fetchJson ⟨3, .load 201 "Created" "N"⟩ "Could not fetch." 0
        = .rejected ("Could not fetch." ++ " HTTP " ++ "Created" ++ ".") := by
  constructor <;> rfl

/-- C7 (amended): every `fetchJson` call settles with exactly one
terminal outcome, but classified as the code classifies it: status 200
resolves with the parsed body, or with `null` when parsing fails; any
other status (2xx included) rejects with the label plus the HTTP status
text; transport failure or abort rejects with the label alone; an armed
timeout is covered by the timeout theorem. -/
theorem fetchJson_outcome_taxonomy (srv : ServerBehavior) (label : String)
    (t : Nat) (hnt : ¬ (0 < t ∧ t < srv.latency)) :
    (∀ sx body v, srv.terminal = .load 200 sx body → jsonParse body = some v →
        fetchJson srv label t = .resolved v)
      ∧ (∀ sx body, srv.terminal = .load 200 sx body → jsonParse body = none →
        fetchJson srv label t = .resolved .null)
      ∧ (∀ s sx body, srv.terminal = .load s sx body → s ≠ 200 →
        fetchJson srv label t = .rejected (label ++ " HTTP " ++ sx ++ "."))
      ∧ (srv.terminal = .netError → fetchJson srv label t = .rejected label)
      ∧ (srv.terminal = .aborted → fetchJson srv label t = .rejected label) := by
  refine ⟨?_, ?_, ?_, ?_, ?_⟩
  · intro sx body v hterm hparse
    simp [fetchJson, fetchFile, hnt, hterm, xhrResponse, hparse]
  · intro sx body hterm hparse
    simp [fetchJson, fetchFile, hnt, hterm, xhrResponse, hparse]
  · intro s sx body hterm hs
    simp [fetchJson, fetchFile, hnt, hterm, hs]
  · intro hterm
    simp [fetchJson, fetchFile, hnt, hterm]
  · intro hterm
    simp [fetchJson, fetchFile, hnt, hterm]

/-- C7 witness: the malformed-body case at a concrete server. -/
theorem fetchJson_outcome_taxonomy_witness :
    fetchJson ⟨3, .load 200 "OK" "?"⟩ "Rates failed." 0 = .resolved .null :=
  (fetchJson_outcome_taxonomy ⟨3, .load 200 "OK" "?"⟩ "Rates failed." 0
      (by decide)).2.1 "OK" "?" rfl rfl

/-- C8 counterexample: in the `localStorage` fallback backing, reading a
never-written key resolves with `null` — `getItem` gives `null`, which
`JSON.parse` reads as the JSON value `null` — which is exactly what a
stored JSON `null` reads back as, so the two are indistinguishable and
no `NotFound` outcome occurs. -/
theorem fallback_absent_key_reads_null :
    loadFromStore false [] [] "settings.flag" = .value .null
      ∧ loadFromStore false []
          (saveToStore false [] [] "settings.flag" .null).2 "settings.flag"
        = .value .null := by
  constructor <;> rfl

/-- C8 (amended): only the IndexedDB backing distinguishes a
never-written key — rejecting with a key-not-found error distinct from
a stored `null` — while the `localStorage` fallback resolves a
never-written key with `null`, indistinguishable from a stored `null`. -/
theorem absent_key_by_backing (st : IdbStore) (ls : WebStorage) (key : String) :
    (idbGet st key = none →
        loadFromStore true st ls key = .keyNotFound ("Key not found: " ++ key))
      ∧ loadFromStore true (saveToStore true st ls key .null).1 ls key
        = .value .null
      ∧ (lsGetItem ls key = none → loadFromStore false st ls key = .value .null) := by
  refine ⟨?_, ?_, ?_⟩
  · intro h
    simp [loadFromStore, h]
  · simp [loadFromStore, saveToStore, idbGet_idbPut]
  · intro h
    simp [loadFromStore, h]

/-- C8 witness: the amended statement at concrete stores and key. -/
theorem absent_key_by_backing_witness :
    loadFromStore true [] [] "currency.code"
      = .keyNotFound ("Key not found: " ++ "currency.code") :=
  (absent_key_by_backing [] [] "currency.code").1 rfl

/-- C9: for every key and every JSON-serializable value, `put` followed
by `get` yields the value back (deep equality is structural equality of
the modelled JSON values), in the IndexedDB backing — which stores the
value as-is — and in the `localStorage` backing — which round-trips it
through the JSON codec. -/
theorem store_roundtrip_both_backings (st : IdbStore) (ls : WebStorage)
    (key : String) (v : JVal) :
    loadFromStore true (saveToStore true st ls key v).1
        (saveToStore true st ls key v).2 key = .value v
      ∧ loadFromStore false (saveToStore false st ls key v).1
        (saveToStore false st ls key v).2 key = .value v := by
  constructor
  · simp [loadFromStore, saveToStore, idbGet_idbPut]
  · simp [loadFromStore, saveToStore, lsGetItem_lsSetItem, jsonParse_jsonStringify]

/-- C1 counterexample: with a prior storage holding only an older
generation and not the current one, activation deletes everything and
leaves zero caches — not exactly one equal to the current identifier. -/
theorem activate_prior_without_current_leaves_none :
    activateHandler [("material-money-v7", [])] = ([] : CacheStorage)
      ∧ cacheNames (activateHandler [("material-money-v7", [])]) ≠ [APP_CACHE] := by
  constructor
  · rfl
  · decide

/-- C1 (amended): activation deletes every cache whose name differs
from the current generation identifier before it resolves; what
survives is exactly the prior caches named `APP_CACHE` — exactly one
when the current generation already existed, as a completed install
guarantees, and none when it did not. -/
theorem activate_retains_exactly_current (cs : CacheStorage)
    (hnd : (cacheNames cs).Nodup) :
    (∀ n ∈ cacheNames (activateHandler cs), n = APP_CACHE)
      ∧ (APP_CACHE ∈ cacheNames cs →
        cacheNames (activateHandler cs) = [APP_CACHE])
      ∧ (APP_CACHE ∉ cacheNames cs → activateHandler cs = []) := by
  refine ⟨?_, ?_, ?_⟩
  · intro n hn
    rw [cacheNames_activateHandler] at hn
    exact beq_iff_eq.mp (List.mem_filter.mp hn).2
  · intro hmem
    rw [cacheNames_activateHandler, List.filter_beq,
      List.count_eq_one_of_mem hnd hmem, List.replicate_one]
  · intro hmem
    simp only [activateHandler]
    rw [List.filter_eq_nil_iff]
    intro c hc
    simp only [beq_iff_eq]
    exact fun hfst => hmem (List.mem_map.mpr ⟨c, hc, hfst⟩)

/-- C1 witness: the amended statement at a prior storage holding the
current generation and one older generation. -/
theorem activate_retains_exactly_current_witness :
    cacheNames (activateHandler [(APP_CACHE, []), ("material-money-v7", [])])
      = [APP_CACHE] :=
  (activate_retains_exactly_current [(APP_CACHE, []), ("material-money-v7", [])]
      (by decide)).2.1 (by decide)

/-- C2 counterexample: with the root fetch succeeding and every other
manifest fetch failing, installation fails as a whole, yet the new
generation is present (empty) afterwards — `caches.open` had already
created it before `addAll` rejected — so the failed install's terminal
state is an existing, not absent, generation. -/
theorem install_failure_generation_present :
    (installHandler (fun u => if u = "/" then some ⟨"home", true⟩ else none) []).1
        = false
      ∧ APP_CACHE ∈ cacheNames
          (installHandler (fun u => if u = "/" then some ⟨"home", true⟩ else none) []).2 := by
  constructor
  · rfl
  · decide

/-- C2 (amended): installation fails as a whole when any manifest URL
fails to fetch (or is non-ok) and then writes no entry at all, while a
fully successful install writes an entry for every manifest URL; on
failure, however, the generation cache itself exists, empty for a fresh
install, rather than being absent. -/
theorem install_precache_all_or_nothing (net : Network) (cs : CacheStorage)
    (hfresh : APP_CACHE ∉ cacheNames cs) :
    ((∀ u ∈ urlsToCache, okResp (net u) = true) →
        (installHandler net cs).1 = true
          ∧ ∀ u ∈ urlsToCache,
              cacheMatch (installHandler net cs).2 APP_CACHE u = net u)
      ∧ ((∃ u ∈ urlsToCache, okResp (net u) = false) →
        (installHandler net cs).1 = false
          ∧ APP_CACHE ∈ cacheNames (installHandler net cs).2
          ∧ ∀ u, cacheMatch (installHandler net cs).2 APP_CACHE u = none) := by
  constructor
  · intro hall
    have hfa := fetchAllOk_eq_map net urlsToCache hall
    constructor
    · simp [installHandler, cacheAddAll, hfa]
    · intro u hu
      have hmem : (u, (net u).getD ⟨"", false⟩)
          ∈ urlsToCache.map (fun x => (x, (net x).getD ⟨"", false⟩)) :=
        List.mem_map.mpr ⟨u, hu, rfl⟩
      have hfst : (urlsToCache.map
          (fun x => (x, (net x).getD ⟨"", false⟩))).map Prod.fst = urlsToCache := by
        rw [List.map_map]
        exact List.map_id urlsToCache
      have hname := mem_cacheNames_cachesOpen cs APP_CACHE
      have hlook := cacheMatch_foldl_put_mem
        (urlsToCache.map (fun x => (x, (net x).getD ⟨"", false⟩)))
        (cachesOpen cs APP_CACHE) APP_CACHE u ((net u).getD ⟨"", false⟩)
        hname (by rw [hfst]; decide) hmem
      have hvr : net u = some ((net u).getD ⟨"", false⟩) := by
        have := hall u hu
        cases hnet : net u with
        | none => rw [hnet] at this; simp [okResp] at this
        | some r => simp
      rw [hvr]
      simp only [installHandler, cacheAddAll, hfa]
      exact hlook
  · rintro ⟨u0, hu0, hbad⟩
    have hfa := fetchAllOk_none net urlsToCache u0 hu0 hbad
    refine ⟨?_, ?_, ?_⟩
    · simp [installHandler, cacheAddAll, hfa]
    · simp only [installHandler, cacheAddAll, hfa]
      exact mem_cacheNames_cachesOpen cs APP_CACHE
    · intro u
      simp only [installHandler, cacheAddAll, hfa]
      exact cacheMatch_cachesOpen_fresh cs APP_CACHE hfresh u

/-- C2 witness: a fully successful install at a network answering every
URL with an ok response, checked on the root document entry. -/
theorem install_precache_all_or_nothing_witness :
    (installHandler (fun _ => some ⟨"payload", true⟩) []).1 = true
      ∧ cacheMatch (installHandler (fun _ => some ⟨"payload", true⟩) []).2
          APP_CACHE "/" = some ⟨"payload", true⟩ := by
  have h := (install_precache_all_or_nothing (fun _ => some ⟨"payload", true⟩) []
      (by simp [cacheNames])).1 (by intro u hu; rfl)
  exact ⟨h.1, h.2 "/" (by decide)⟩

/-- C3 counterexample: a cross-origin request matched neither by the
precache manifest nor by the application origin: the claim's router
passes it through untouched, but the listener's final branch intercepts
it — `respondWith` is called. -/
theorem router_intercepts_unmatched_request :
    specClassify "https://material.money"
        ⟨"https://thirdparty.example", "/analytics.js"⟩ = .passThrough
      ∧ (fetchHandler (fun _ => none) 0 []
          ⟨"https://thirdparty.example", "/analytics.js"⟩).responded ≠ none := by
  constructor
  · rfl
  · decide

/-- C3 (amended): the listener classifies on the pathname alone, into
exactly three behaviours — `/rates` is not intercepted (and touches no
cache) while its own fetch is issued; the root is intercepted with a
cache-busted fetch issued; and every other request, same-origin or not,
manifest-matched or not, is intercepted by the cache-first branch —
there is no pass-through category. -/
theorem router_path_only_classification (net : Network) (now : Nat)
    (cs : CacheStorage) (req : SWRequest) :
    (req.path = "/rates" →
        (fetchHandler net now cs req).responded = none
          ∧ (fetchHandler net now cs req).usedCache = false
          ∧ (fetchHandler net now cs req).handlerFetches = [req.url])
      ∧ (req.path = "/" →
        (fetchHandler net now cs req).responded ≠ none
          ∧ (fetchHandler net now cs req).handlerFetches = [bustedUrl req now])
      ∧ (req.path ≠ "/rates" → req.path ≠ "/" →
        (fetchHandler net now cs req).responded ≠ none
          ∧ (fetchHandler net now cs req).usedCache = true) := by
  refine ⟨?_, ?_, ?_⟩
  · intro h
    simp [fetchHandler, h]
  · intro h
    have hne : req.path ≠ "/rates" := by rw [h]; decide
    simp only [fetchHandler, if_neg hne, if_pos h]
    simp [cacheThenUpdateWithCacheBust]
  · intro h1 h2
    simp only [fetchHandler, if_neg h1, if_neg h2]
    simp only [cacheWithNetworkFallbackAndStore]
    cases hm : cacheMatch (cachesOpen cs APP_CACHE) APP_CACHE req.url with
    | some r => simp [hm]
    | none =>
      cases hn : net req.url with
      | some r => simp [hm, hn]
      | none => simp [hm, hn]

/-- C3 witness: the root branch at a concrete request issues exactly
the cache-busted fetch. -/
theorem router_path_only_classification_witness :
    (fetchHandler (fun _ => none) 0 [] ⟨"https://material.money", "/"⟩).handlerFetches
      = [bustedUrl ⟨"https://material.money", "/"⟩ 0] :=
  ((router_path_only_classification (fun _ => none) 0 []
      ⟨"https://material.money", "/"⟩).2.1 rfl).2

/-- C4: the `/rates` branch issues the request's own URL to the network
and the caller receives the network's response for that URL verbatim
(the handler never calls `respondWith`, so the browser's default
network handling serves it), and the branch neither reads nor writes
the cache, whose storage is left untouched. -/
theorem rates_route_network_only (net : Network) (now : Nat) (cs : CacheStorage)
    (req : SWRequest) (h : req.path = "/rates") :
    servedToCaller net req (fetchHandler net now cs req) = net req.url
      ∧ (fetchHandler net now cs req).cacheAfter = cs
      ∧ (fetchHandler net now cs req).usedCache = false
      ∧ (fetchHandler net now cs req).handlerFetches = [req.url] := by
  simp [fetchHandler, h, servedToCaller]

/-- C4 witness: the rates branch at a concrete request and network. -/
theorem rates_route_network_only_witness :
    (fetchHandler (fun u => some ⟨u, true⟩) 3 []
        ⟨"https://material.money", "/rates"⟩).usedCache = false :=
  (rates_route_network_only (fun u => some ⟨u, true⟩) 3 []
      ⟨"https://material.money", "/rates"⟩ rfl).2.2.1

/-- C5 counterexample: on the document root with an empty cache and a
failing network, the promise handed to `respondWith` rejects, and the
caller receives that failure — an error is surfaced to the caller on
the network-failure path, against the claim. -/
theorem swr_miss_network_failure_surfaces_error :
    (fetchHandler (fun _ => none) 7 []
        ⟨"https://material.money", "/"⟩).responded = some none
      ∧ servedToCaller (fun _ => none) ⟨"https://material.money", "/"⟩
          (fetchHandler (fun _ => none) 7 [] ⟨"https://material.money", "/"⟩)
        = none := by
  constructor <;> rfl

/-- C5 (amended): on the document root, a cache miss with a successful
busted fetch serves that response, writes it back under the original
identity, and a subsequent cache-first invocation returns it from cache
with no network fetch; a failed busted fetch writes nothing, and a
cache hit is served to the caller unconditionally (no error surfaces to
a caller that was served from cache) — but a caller pending on the
network fallback does receive the failure. -/
theorem swr_writeback_convergence (net net2 : Network) (now : Nat)
    (cs : CacheStorage) (req : SWRequest) (hroot : req.path = "/") :
    (∀ R, cacheMatch (cachesOpen cs APP_CACHE) APP_CACHE req.url = none →
        net (bustedUrl req now) = some R →
        (fetchHandler net now cs req).responded = some (some R)
          ∧ cacheMatch (fetchHandler net now cs req).cacheAfter APP_CACHE req.url
            = some R
          ∧ (cacheWithNetworkFallbackAndStore net2
              (fetchHandler net now cs req).cacheAfter req).responded
            = some (some R)
          ∧ (cacheWithNetworkFallbackAndStore net2
              (fetchHandler net now cs req).cacheAfter req).handlerFetches = [])
      ∧ (net (bustedUrl req now) = none →
        (fetchHandler net now cs req).cacheAfter = cachesOpen cs APP_CACHE)
      ∧ (∀ r, cacheMatch (cachesOpen cs APP_CACHE) APP_CACHE req.url = some r →
        (fetchHandler net now cs req).responded = some (some r)) := by
  have hne : req.path ≠ "/rates" := by rw [hroot]; decide
  have hf : fetchHandler net now cs req = cacheThenUpdateWithCacheBust net now cs req := by
    simp only [fetchHandler, if_neg hne, if_pos hroot]
  refine ⟨?_, ?_, ?_⟩
  · intro R hmiss hnet
    have hafter : (fetchHandler net now cs req).cacheAfter
        = cachePut (cachesOpen cs APP_CACHE) APP_CACHE req.url R := by
      rw [hf]
      simp [cacheThenUpdateWithCacheBust, hnet]
    have hnamem : APP_CACHE ∈ cacheNames (fetchHandler net now cs req).cacheAfter := by
      rw [hafter, cacheNames_cachePut]
      exact mem_cacheNames_cachesOpen cs APP_CACHE
    have hhit : cacheMatch (fetchHandler net now cs req).cacheAfter APP_CACHE req.url
        = some R := by
      rw [hafter]
      exact cacheMatch_cachePut_self (cachesOpen cs APP_CACHE) APP_CACHE req.url R
        (mem_cacheNames_cachesOpen cs APP_CACHE)
    refine ⟨?_, hhit, ?_, ?_⟩
    · rw [hf]
      simp [cacheThenUpdateWithCacheBust, hmiss, hnet]
    · simp only [cacheWithNetworkFallbackAndStore,
        cachesOpen_of_mem _ _ hnamem, hhit]
    · simp only [cacheWithNetworkFallbackAndStore,
        cachesOpen_of_mem _ _ hnamem, hhit]
  · intro hnet
    rw [hf]
    simp [cacheThenUpdateWithCacheBust, hnet]
  · intro r hhit
    rw [hf]
    simp [cacheThenUpdateWithCacheBust, hhit]

/-- C5 witness: the convergence case at a concrete request, empty cache
and succeeding network. -/
theorem swr_writeback_convergence_witness :
    cacheMatch (fetchHandler (fun _ => some ⟨"fresh", true⟩) 7 []
        ⟨"https://material.money", "/"⟩).cacheAfter APP_CACHE
        (SWRequest.url ⟨"https://material.money", "/"⟩)
      = some ⟨"fresh", true⟩ :=
  ((swr_writeback_convergence (fun _ => some ⟨"fresh", true⟩)
      (fun _ => none) 7 [] ⟨"https://material.money", "/"⟩ rfl).1
    ⟨"fresh", true⟩ (by decide) rfl).2.1

/-- C10 counterexample: on a successful delivery the notification is
the first action and the IndexedDB put runs strictly after it — the
promise chain continues without awaiting the put, whose success
callback fires as a later task — and with IndexedDB unavailable the
notification is shown with no persistence at all; against "the
notification is never emitted before the fetched value has been
successfully persisted". -/
theorem sync_notification_precedes_persistence :
    syncHandler "rates" (fun _ => some (jsonStringify (.num 42))) true
        = [.notify "Material Money" "Currency rates updated."
             "/images/touch/icon-256x256.png" "/images/touch/icon-256x256.png",
           .idbPutAction "db" "kv" "rates" (.num 42)]
      ∧ syncHandler "rates" (fun _ => some (jsonStringify (.num 42))) false
        = [.notify "Material Money" "Currency rates updated."
             "/images/touch/icon-256x256.png" "/images/touch/icon-256x256.png"] := by
  have h := jsonParse_jsonStringify (.num 42)
  constructor <;> simp [syncHandler, h]

/-- C10 (amended): only the `rates` tag does anything; nothing at all —
in particular no notification — is emitted when the fetch or the parse
fails, and on success the notification is the first action, followed by
the un-awaited put of the parsed document under the key `rates`
(exactly when IndexedDB is available, and nothing is persisted
otherwise). -/
theorem sync_rates_actions (tag : String) (rateNet : String → Option String)
    (idb : Bool) :
    (tag ≠ "rates" → syncHandler tag rateNet idb = [])
      ∧ (rateNet RATE_URL = none → syncHandler tag rateNet idb = [])
      ∧ (∀ body, rateNet RATE_URL = some body → jsonParse body = none →
        syncHandler tag rateNet idb = [])
      ∧ (∀ body v, tag = "rates" → rateNet RATE_URL = some body →
        jsonParse body = some v →
        (syncHandler tag rateNet idb).head?
            = some (.notify "Material Money" "Currency rates updated."
                "/images/touch/icon-256x256.png" "/images/touch/icon-256x256.png")
          ∧ (idb = true →
            syncHandler tag rateNet idb
              = [.notify "Material Money" "Currency rates updated."
                   "/images/touch/icon-256x256.png" "/images/touch/icon-256x256.png",
                 .idbPutAction "db" "kv" "rates" v])
          ∧ (idb = false →
            syncHandler tag rateNet idb
              = [.notify "Material Money" "Currency rates updated."
                   "/images/touch/icon-256x256.png" "/images/touch/icon-256x256.png"])) := by
  refine ⟨?_, ?_, ?_, ?_⟩
  · intro h
    simp [syncHandler, h]
  · intro h
    by_cases ht : tag = "rates" <;> simp [syncHandler, ht, h]
  · intro body hb hp
    by_cases ht : tag = "rates" <;> simp [syncHandler, ht, hb, hp]
  · intro body v ht hb hp
    subst ht
    refine ⟨?_, ?_, ?_⟩
    · simp [syncHandler, hb, hp]
    · intro hi
      subst hi
      simp [syncHandler, hb, hp]
    · intro hi
      subst hi
      simp [syncHandler, hb, hp]

/-- C10 witness: a successful delivery with IndexedDB available at a
concrete fetched document. -/
theorem sync_rates_actions_witness :
    (syncHandler "rates" (fun _ => some (jsonStringify .null)) true).head?
      = some (.notify "Material Money" "Currency rates updated."
          "/images/touch/icon-256x256.png" "/images/touch/icon-256x256.png") :=
  ((sync_rates_actions "rates" (fun _ => some (jsonStringify .null)) true).2.2.2
    (jsonStringify .null) .null rfl rfl (jsonParse_jsonStringify .null)).1

end MaterialMoney
